import Mathlib

/-
  Verification development for the wokwi2verilog repository.

  Part A models, directly from src/example.c, the toy C interpreter
  (eval_expression and its helpers), the 5x7 text renderer
  (draw_char / draw_string), and the FAT16 file lookup (read_file).

  Part B models, from the specification, the OLED UI core (compositor,
  button registry, cursor/screen controller): the repository file holding
  that chip is not under src/, so those definitions are spec-modelled.

  C machine integers are modelled as Nat / Int; where C performs modular
  arithmetic on a fixed width the model applies an explicit % 2^w.
  Signed-int overflow is undefined behaviour in C, so Int (unbounded) is
  used as the defined-behaviour model of `int` values.
-/

namespace W2V

/-! ### Part A.1 — the toy C interpreter of src/example.c -/

/-- Character class test mirroring the C condition
    `**str >= '0' && **str <= '9'` (src/example.c:610 and friends). -/
def isDigitChar (c : Char) : Bool := decide ('0' ≤ c ∧ c ≤ '9')

/-- Mirrors `(**str >= 'a' && **str <= 'z') || (**str >= 'A' && **str <= 'Z')`
    (src/example.c:612). -/
def isAlphaChar (c : Char) : Bool :=
  decide (('a' ≤ c ∧ c ≤ 'z') ∨ ('A' ≤ c ∧ c ≤ 'Z'))

/-- Identifier characters accepted by parse_identifier (src/example.c:584-587):
    letters, digits, underscore. -/
def isIdentChar (c : Char) : Bool :=
  isAlphaChar c || isDigitChar c || decide (c = '_')

/-- Whitespace characters skipped by skip_whitespace (src/example.c:598). -/
def isSpaceChar (c : Char) : Bool :=
  decide (c = ' ' ∨ c = '\t' ∨ c = '\n' ∨ c = '\r')

/-- The operator characters of the expression evaluator (src/example.c:638). -/
def isOpChar (c : Char) : Bool :=
  decide (c = '+' ∨ c = '-' ∨ c = '*' ∨ c = '/')

/-- skip_whitespace (src/example.c:597-601): advance past blanks. -/
def skip_whitespace : List Char → List Char
  | [] => []
  | c :: t => if isSpaceChar c then skip_whitespace t else c :: t

/-- Accumulator loop of parse_number (src/example.c:572-579):
    `result = result * 10 + (**str - '0')` while digits last.
    The C accumulator is an `int`; overflow there is UB, the model is exact. -/
def parse_number_aux : ℕ → List Char → ℕ × List Char
  | acc, [] => (acc, [])
  | acc, c :: t =>
    if isDigitChar c then parse_number_aux (acc * 10 + (c.toNat - 48)) t
    else (acc, c :: t)

/-- parse_number (src/example.c:572-579). -/
def parse_number (s : List Char) : ℕ × List Char := parse_number_aux 0 s

/-- Consumption loop of parse_identifier (src/example.c:582-594): every
    identifier character is consumed, returned separately from the rest. -/
def parse_ident_aux : List Char → List Char × List Char
  | [] => ([], [])
  | c :: t =>
    if isIdentChar c then
      let p := parse_ident_aux t
      (c :: p.1, p.2)
    else ([], c :: t)

/-- parse_identifier (src/example.c:582-594): the buffer holds at most 15
    characters (`max_len - 1` with the 16-byte name buffer), extra identifier
    characters are consumed but dropped. -/
def parse_identifier (s : List Char) : String × List Char :=
  let p := parse_ident_aux s
  (String.mk (p.1.take 15), p.2)

/-- variable_t (src/example.c:11-14): values live in an int16_t slot. -/
structure variable_t where
  name : String
  value : Int
deriving DecidableEq

/-- The slice of chip_state_t that eval_expression touches
    (src/example.c:44-50): error flag, error message, variable table. -/
structure Interp where
  error : Bool
  errorMsg : String
  vars : List variable_t
deriving DecidableEq

/-- `chip->error = 1; strcpy(chip->error_msg, msg);` -/
def setError (st : Interp) (msg : String) : Interp :=
  { st with error := true, errorMsg := msg }

/-- Linear search of get_variable (src/example.c:555-559). -/
def lookupVar : List variable_t → String → Option Int
  | [], _ => none
  | v :: t, nm => if v.name = nm then some v.value else lookupVar t nm

/-- get_variable (src/example.c:554-569) as used by eval_expression
    (`var ? var->value : 0`): an unknown name is created with value 0 when
    fewer than 32 variables exist; at capacity the NULL return reads as 0. -/
def get_variable_value (st : Interp) (nm : String) : Int × Interp :=
  match lookupVar st.vars nm with
  | some v => (v, st)
  | none =>
    if st.vars.length < 32 then
      (0, { st with vars := st.vars ++ [⟨nm, 0⟩] })
    else (0, st)

/-- The switch statement of eval_expression (src/example.c:672-685),
    excluding the division-by-zero guard which is handled by the caller.
    C's `/` on int truncates toward zero, hence Int.tdiv. -/
def applyBin (op : Char) (r v : Int) : Int :=
  if op = '+' then r + v
  else if op = '-' then r - v
  else if op = '*' then r * v
  else if op = '/' then Int.tdiv r v
  else r

/-- Result of parsing one term inside the operator loop. -/
structure TermRes where
  v : Int
  st : Interp
  rest : List Char
  ok : Bool

/-- eval_expression (src/example.c:604-689), embedded with explicit fuel so
    the recursion (parenthesised sub-expressions, operator loop) is
    structural.  `phase = none` is the function entry (parse the first term);
    `phase = some r` is the operator while-loop with accumulated result `r`.
    Each error path returns 0 at the position the C pointer reached, with the
    error flag and message set exactly as the source writes them.  Fuel 0 is
    unreachable for the canonical fuel used by eval_expression below. -/
def evalE : ℕ → Option Int → Interp → List Char → Int × Interp × List Char
  | 0, _, st, s => (0, st, s)
  | fuel + 1, none, st, s =>
    let s0 := skip_whitespace s
    match s0 with
    | [] => (0, setError st ("Invalid expression start"), [])
    | c :: t =>
      if isDigitChar c then
        let p := parse_number (c :: t)
        evalE fuel (some (p.1 : Int)) st p.2
      else if isAlphaChar c then
        let q := parse_identifier (c :: t)
        let gv := get_variable_value st q.1
        evalE fuel (some gv.1) gv.2 q.2
      else if c = '(' then
        let r := evalE fuel none st t
        let s1 := skip_whitespace r.2.2
        match s1 with
        | ')' :: t1 => evalE fuel (some r.1) r.2.1 t1
        | s1x => (0, setError r.2.1 ("Expected )"), s1x)
      else (0, setError st ("Invalid expression start"), c :: t)
  | fuel + 1, some result, st, s =>
    let s1 := skip_whitespace s
    match s1 with
    | [] => (result, st, [])
    | op :: t =>
      if isOpChar op then
        let s2 := skip_whitespace t
        let tr : TermRes :=
          match s2 with
          | [] => ⟨0, setError st ("Expected value after operator"), [], false⟩
          | c :: t2 =>
            if isDigitChar c then
              let p := parse_number (c :: t2)
              ⟨(p.1 : Int), st, p.2, true⟩
            else if isAlphaChar c then
              let q := parse_identifier (c :: t2)
              let gv := get_variable_value st q.1
              ⟨gv.1, gv.2, q.2, true⟩
            else if c = '(' then
              let r := evalE fuel none st t2
              let s4 := skip_whitespace r.2.2
              match s4 with
              | ')' :: t4 => ⟨r.1, r.2.1, t4, true⟩
              | s4x => ⟨0, setError r.2.1 ("Expected )"), s4x, false⟩
            else ⟨0, setError st ("Expected value after operator"), c :: t2, false⟩
        if tr.ok then
          if op = '/' ∧ tr.v = 0 then
            (0, setError tr.st ("Division by zero"), tr.rest)
          else evalE fuel (some (applyBin op result tr.v)) tr.st tr.rest
        else (0, tr.st, tr.rest)
      else (result, st, op :: t)

/-- eval_expression (src/example.c:604-689).  The fuel bound 2*len+3 exceeds
    the number of recursive calls possible on an input of this length: every
    phase change either consumes a character or follows one consumption. -/
def eval_expression (st : Interp) (s : List Char) : Int × Interp × List Char :=
  evalE (2 * s.length + 3) none st s

/-- Value of a literal digit string, exactly as parse_number accumulates it. -/
def digitsVal (ds : List Char) : ℕ :=
  ds.foldl (fun a c => a * 10 + (c.toNat - 48)) 0

end W2V

namespace W2V

/-! ### Part A.2 — the ILI9341 text renderer of src/example.c -/

/-- font_5x7 (src/example.c:88-271): 91 rows, characters 32..122; each entry
    is the 7 row bitmaps of a 5-column glyph (bit 4-col selects the column).
    Characters with no glyph in the source table are all-zero rows. -/
def font_5x7 : List (List ℕ) := [
  [0, 0, 0, 0, 0, 0, 0],
  [4, 4, 4, 4, 4, 0, 4],
  [0, 0, 0, 0, 0, 0, 0],
  [0, 0, 0, 5, 15, 15, 10],
  [0, 0, 0, 0, 0, 0, 0],
  [0, 0, 0, 0, 0, 0, 0],
  [0, 0, 0, 0, 0, 0, 0],
  [0, 0, 0, 0, 0, 0, 0],
  [0, 0, 0, 0, 0, 0, 0],
  [0, 0, 0, 0, 0, 0, 0],
  [0, 0, 0, 0, 0, 0, 0],
  [0, 0, 0, 0, 0, 0, 0],
  [0, 0, 0, 0, 0, 0, 0],
  [0, 0, 0, 0, 0, 0, 0],
  [0, 0, 0, 0, 0, 0, 0],
  [0, 0, 0, 0, 0, 0, 0],
  [14, 17, 19, 21, 25, 17, 14],
  [4, 12, 4, 4, 4, 4, 14],
  [14, 17, 1, 2, 4, 8, 31],
  [31, 2, 4, 2, 1, 17, 14],
  [2, 6, 10, 18, 31, 2, 2],
  [31, 16, 30, 1, 1, 17, 14],
  [6, 8, 16, 30, 17, 17, 14],
  [31, 1, 2, 4, 8, 8, 8],
  [14, 17, 17, 14, 17, 17, 14],
  [14, 17, 17, 15, 1, 2, 12],
  [0, 0, 0, 0, 0, 0, 0],
  [0, 0, 2, 0, 4, 8, 0],
  [0, 0, 0, 0, 0, 0, 0],
  [0, 0, 0, 0, 0, 0, 0],
  [0, 0, 0, 0, 0, 0, 0],
  [0, 0, 0, 0, 0, 0, 0],
  [0, 15, 1, 15, 11, 15, 15],
  [4, 10, 17, 17, 31, 17, 17],
  [30, 17, 17, 30, 17, 17, 30],
  [14, 17, 16, 16, 16, 17, 14],
  [30, 17, 17, 17, 17, 17, 30],
  [31, 16, 16, 30, 16, 16, 31],
  [31, 16, 16, 30, 16, 16, 16],
  [14, 17, 16, 23, 17, 17, 15],
  [17, 17, 17, 31, 17, 17, 17],
  [14, 4, 4, 4, 4, 4, 14],
  [7, 2, 2, 2, 2, 18, 12],
  [17, 18, 20, 24, 20, 18, 17],
  [16, 16, 16, 16, 16, 16, 31],
  [17, 27, 21, 21, 17, 17, 17],
  [17, 17, 25, 21, 19, 17, 17],
  [14, 17, 17, 17, 17, 17, 14],
  [30, 17, 17, 30, 16, 16, 16],
  [14, 17, 17, 17, 21, 18, 13],
  [30, 17, 17, 30, 20, 18, 17],
  [15, 16, 16, 14, 1, 1, 30],
  [31, 4, 4, 4, 4, 4, 4],
  [17, 17, 17, 17, 17, 17, 14],
  [17, 17, 17, 17, 17, 10, 4],
  [17, 17, 17, 21, 21, 21, 10],
  [17, 17, 10, 4, 10, 17, 17],
  [17, 17, 17, 10, 4, 4, 4],
  [31, 1, 2, 4, 8, 16, 31],
  [0, 0, 0, 0, 0, 0, 0],
  [0, 0, 0, 0, 0, 0, 0],
  [0, 0, 0, 0, 0, 0, 0],
  [0, 0, 0, 0, 0, 0, 0],
  [0, 0, 0, 0, 0, 0, 0],
  [0, 0, 0, 0, 0, 0, 0],
  [0, 0, 14, 18, 18, 15, 0],
  [16, 16, 16, 16, 28, 18, 28],
  [0, 0, 14, 16, 16, 16, 14],
  [2, 2, 2, 14, 18, 18, 14],
  [0, 0, 14, 17, 30, 16, 14],
  [0, 8, 14, 8, 28, 8, 8],
  [0, 15, 18, 18, 14, 2, 28],
  [8, 8, 8, 8, 14, 10, 10],
  [0, 0, 4, 0, 4, 4, 4],
  [0, 0, 4, 0, 4, 4, 24],
  [8, 8, 10, 12, 12, 10, 9],
  [0, 0, 4, 4, 4, 4, 4],
  [0, 0, 0, 0, 27, 21, 21],
  [0, 0, 0, 14, 9, 9, 9],
  [0, 0, 14, 17, 17, 17, 14],
  [0, 8, 14, 10, 14, 8, 8],
  [0, 14, 18, 18, 14, 2, 2],
  [0, 0, 8, 14, 10, 8, 8],
  [0, 0, 15, 16, 14, 1, 30],
  [0, 0, 31, 4, 4, 4, 4],
  [0, 0, 0, 17, 17, 17, 14],
  [0, 0, 0, 17, 17, 10, 4],
  [0, 0, 0, 17, 21, 21, 10],
  [0, 0, 17, 10, 4, 10, 17],
  [0, 0, 9, 9, 7, 1, 15],
  [0, 0, 31, 2, 4, 8, 31]
]

/-- Row lookup into font_5x7.  The C guard in draw_char admits characters up
    to 126, but the table only has 91 entries, so characters 123..126 index
    past the end of the array (undefined behaviour in C); the model returns 0
    (no pixel) for those indices. -/
def fontRow (idx row : ℕ) : ℕ := (font_5x7.getD idx []).getD row 0

/-- draw_char (src/example.c:337-351) as the list of pixel coordinates it
    lights: nothing at all for characters outside [32,126], otherwise the set
    bits of the glyph, column bit `4 - col` of each row byte. -/
def draw_char_pixels (c : Char) (x y : ℕ) : List (ℕ × ℕ) :=
  if c.toNat < 32 ∨ 126 < c.toNat then []
  else
    (List.range 7).flatMap (fun row =>
      (List.range 5).filterMap (fun col =>
        if Nat.testBit (fontRow (c.toNat - 32) row) (4 - col) then
          some (x + col, y + row)
        else none))

/-- The per-character position update of draw_string (src/example.c:357-361):
    `cx += FONT_WIDTH + 1` (6), then wrap to the start column and down
    FONT_HEIGHT + 2 (9) rows when `cx + FONT_WIDTH > 240`.  cx and y are
    uint16_t, hence the % 65536. -/
def advancePos (x cx y : ℕ) : ℕ × ℕ :=
  let cx1 := (cx + 6) % 65536
  if 240 < cx1 + 5 then (x, (y + 9) % 65536) else (cx1, y)

/-- draw_string (src/example.c:353-364): walks the characters, drawing each
    at the current (cx, y) and advancing with advancePos; returns the final
    position together with all pixels drawn. -/
def draw_string_go (x : ℕ) : List Char → ℕ → ℕ → ℕ × ℕ × List (ℕ × ℕ)
  | [], cx, y => (cx, y, [])
  | c :: t, cx, y =>
    let px := draw_char_pixels c cx y
    let p := advancePos x cx y
    let r := draw_string_go x t p.1 p.2
    (r.1, r.2.1, px ++ r.2.2)

/-- draw_string entry point: cx starts at the x argument. -/
def draw_string (s : List Char) (x y : ℕ) : ℕ × ℕ × List (ℕ × ℕ) :=
  draw_string_go x s (x % 65536) (y % 65536)

/-! ### Part A.3 — the FAT16 file lookup of src/example.c -/

/-- Sector bytes as uint8_t values (the SPI read assembles 8 bits). -/
def sbyte (sec : ℕ → ℕ) (i : ℕ) : ℕ := sec i % 256

/-- The 8.3 name assembly of read_file (src/example.c:500-513): the 8 name
    bytes with every 0x20 dropped, a dot, then the 3 extension bytes with
    every 0x20 dropped. -/
def buildName (sec : ℕ → ℕ) (off : ℕ) : String :=
  let nm := (((List.range 8).map (fun j => sbyte sec (off + j))).filter
      (fun b => b ≠ 32)).map Char.ofNat
  let ext := (((List.range 3).map (fun j => sbyte sec (off + 8 + j))).filter
      (fun b => b ≠ 32)).map Char.ofNat
  String.mk (nm ++ '.' :: ext)

/-- The root-directory scan of read_file (src/example.c:495-521), entry
    indices k = i/32: stop with cluster 0 at the first 0x00-initial entry,
    skip 0xE5 (deleted) entries, and on the first entry whose 8.3 rendering
    equals "PROGRAM.C" return the 16-bit first-cluster field read big-endian
    from bytes 26 and 27 (the C breaks there, whatever that value is). -/
def scanGo (sec : ℕ → ℕ) : List ℕ → ℕ
  | [] => 0
  | k :: ks =>
    let b := sbyte sec (32 * k)
    if b = 0 then 0
    else if b = 229 then scanGo sec ks
    else if buildName sec (32 * k) = "PROGRAM.C" then
      sbyte sec (32 * k + 26) * 256 + sbyte sec (32 * k + 27)
    else scanGo sec ks

/-- file_cluster as computed by the scan over the 16 entries of the
    512-byte root-directory sector. -/
def findProgramCluster (sec : ℕ → ℕ) : ℕ := scanGo sec (List.range 16)

/-- The copy loop of read_file (src/example.c:538-543): collect bytes while
    `len < max_len - 1` and the byte is neither 0 nor 0x1A.  (For max_len = 0
    the C int-promoted comparison `len < max_len - 1` is 0 < -1, false, so
    Nat truncated subtraction matches the C exactly.) -/
def contentGo (data : ℕ → ℕ) : ℕ → ℕ → List ℕ
  | 0, _ => []
  | r + 1, idx =>
    let b := sbyte data idx
    if b = 0 ∨ b = 26 then [] else b :: contentGo data r (idx + 1)

/-- Buffer contents produced by a successful read_file. -/
def fileContent (data : ℕ → ℕ) (maxLen : ℕ) : List ℕ :=
  contentGo data (maxLen - 1) 0

/-- read_file (src/example.c:483-547).  The SD card is the collaborator: a
    partial map from sector number to 512 sector bytes (none = the read
    fails).  The root directory is fixed sector 2048; the data sector is
    `2048 + 32 + (file_cluster - 2) * 1` in uint32 arithmetic, which equals
    `2078 + cluster` for every cluster ≥ 1 (including the uint32 wraparound
    at cluster 1, where both give 2079).  The filename argument is used only
    in printf calls in the C source, so the model ignores it. -/
def read_file (card : ℕ → Option (ℕ → ℕ)) (_filename : String) (maxLen : ℕ) :
    Option (List ℕ) :=
  match card 2048 with
  | none => none
  | some root =>
    let cluster := findProgramCluster root
    if cluster = 0 then none
    else
      match card (2078 + cluster) with
      | none => none
      | some data => some (fileContent data maxLen)

end W2V

namespace W2V

/-! ### Part B — the OLED UI core, modelled from the spec

The repository file implementing the OLED compositor, button registry and
cursor/screen controller is not under src/ (src/example.c is the separate
ILI9341 program-runner chip the spec rules out of scope).  Every definition
below is therefore modelled from the specification text (sections 3, 4.1,
4.2, 4.3, 4.4). -/

/-- Modelled from the spec: the missing UI chip's screen enum
    `{Locked, Home}` (spec section 3). -/
inductive Screen where
  | Locked : Screen
  | Home : Screen
deriving DecidableEq

/-- Modelled from the spec: a logical bit-grid layer of the missing UI chip.
    Spec section 9 allows the page-packed byte layout to be represented as a
    plain 2-D boolean grid; the byte view is recovered by layerByte below. -/
def Layer : Type := ℕ → ℕ → Bool

/-- The all-clear layer. -/
def blankLayer : Layer := fun _ _ => false

/-- Point update of one layer bit. -/
def setBit (L : Layer) (x y : ℕ) (v : Bool) : Layer :=
  fun a b => if a = x ∧ b = y then v else L a b

/-- Modelled from the spec: display bounds 128 x 64 (spec section 6);
    out-of-range pixel operations are silently ignored (section 7). -/
def inBoundsPt (x y : ℕ) : Bool := decide (x < 128 ∧ y < 64)

/-- The byte at (page, x) of a layer: bit position = row within the page,
    LSB = top row (spec sections 3 and 9). -/
def layerByte (L : Layer) (page x : ℕ) : ℕ :=
  (List.range 8).foldl (fun acc r => acc + (if L x (page * 8 + r) then 2 ^ r else 0)) 0

/-- Modelled from the spec: a button record of the missing UI chip's
    registry (spec section 3). -/
structure Button where
  startX : ℕ
  startY : ℕ
  width : ℕ
  height : ℕ
  label : String
  filled : Bool
deriving DecidableEq

/-- Modelled from the spec: the missing UI chip's state — three layers, the
    derived framebuffer, cursor, screen, previous Activate level, button
    registry, and its glyph table (the 5-column-per-character font, a fixed
    table in the missing file) kept abstract as a function from character and
    column to the 7-bit column byte. -/
structure OChip where
  text : Layer
  chrome : Layer
  labelInvert : Layer
  fb : Layer
  cursorX : ℕ
  cursorY : ℕ
  cursorInverted : Bool
  screen : Screen
  prevActivate : Bool
  buttons : List Button
  font : Char → ℕ → ℕ

/-- Modelled from the spec: set_on (spec section 4.1) — no-op out of range;
    no-op when the label_invert bit is set; otherwise write the framebuffer
    bit, cleared when the cursor's inverted flag is true, set otherwise. -/
def set_on (c : OChip) (x y : ℕ) : OChip :=
  if inBoundsPt x y = false then c
  else if c.labelInvert x y then c
  else { c with fb := setBit c.fb x y (!c.cursorInverted) }

/-- Modelled from the spec: the priority composite label > chrome > text >
    background that set_off re-derives for a pixel (spec section 4.1), using
    the current inverted flag on label pixels. -/
def compositeAt (c : OChip) (x y : ℕ) : Bool :=
  if c.labelInvert x y then !c.cursorInverted
  else if c.chrome x y then true
  else if c.text x y then true
  else false

/-- Modelled from the spec: set_off (spec section 4.1) — no-op out of range,
    otherwise recompute the pixel from the persistent layers. -/
def set_off (c : OChip) (x y : ℕ) : OChip :=
  if inBoundsPt x y = false then c
  else { c with fb := setBit c.fb x y (compositeAt c x y) }

/-- Modelled from the spec: point-in-box test against a button's half-open
    box [start_x, start_x+width) x [start_y, start_y+height) (section 4.3). -/
def containsPt (b : Button) (x y : ℕ) : Bool :=
  decide (b.startX ≤ x ∧ x < b.startX + b.width ∧
    b.startY ≤ y ∧ y < b.startY + b.height)

/-- Modelled from the spec: hit_test (spec section 4.3) — linear scan,
    first (lowest-index) matching button wins, none when no box contains the
    point. -/
def hit_test : List Button → ℕ → ℕ → Option ℕ
  | [], _, _ => none
  | b :: t, x, y =>
    if containsPt b x y then some 0
    else Option.map (fun n => n + 1) (hit_test t x y)

/-- Modelled from the spec: a button's interior — its box excluding the
    one-pixel border ring (spec section 4.3). -/
def interiorPt (b : Button) (x y : ℕ) : Bool :=
  decide (b.startX + 1 ≤ x ∧ x + 1 < b.startX + b.width ∧
    b.startY + 1 ≤ y ∧ y + 1 < b.startY + b.height)

/-- Writing every in-bounds interior bit of a layer to v (set_filled's fill
    pass, spec section 4.3). -/
def fillInterior (b : Button) (v : Bool) (L : Layer) : Layer :=
  fun a bb =>
    if inBoundsPt a bb = true ∧ interiorPt b a bb = true then v else L a bb

/-- Modelled from the spec: the label's glyph column byte at horizontal
    offset j within the rendered label — a 6-pixel pitch per character, 5
    glyph columns then one blank column (spec section 4.2). -/
def glyphCol (font : Char → ℕ → ℕ) (lab : String) (j : ℕ) : ℕ :=
  if j % 6 < 5 then font (lab.data.getD (j / 6) ' ') (j % 6) % 256 else 0

/-- Modelled from the spec: x of the first label column; create_button
    places the label at x with top_left = (x - 4, page*8 - 2)
    (spec section 4.3), so the label starts 4 pixels right of start_x. -/
def labelX (b : Button) : ℕ := b.startX + 4

/-- Modelled from the spec: the page holding the label glyph bytes
    (top_left y = page*8 - 2, so the label page is (start_y + 2) / 8). -/
def labelPage (b : Button) : ℕ := (b.startY + 2) / 8

/-- The label byte region: the rendered label's columns on its page. -/
def labelRegionPt (b : Button) (x y : ℕ) : Bool :=
  decide (labelX b ≤ x ∧ x < labelX b + 6 * b.label.length ∧ y / 8 = labelPage b)

/-- Modelled from the spec: set_filled's label pass — re-render each label
    glyph byte, bitwise-inverted when filling, uninverted when unfilling
    (spec section 4.3). -/
def writeLabel (font : Char → ℕ → ℕ) (b : Button) (fill : Bool) (L : Layer) : Layer :=
  fun a bb =>
    if inBoundsPt a bb = true ∧ labelRegionPt b a bb = true then
      Nat.testBit
        (if fill then Nat.xor (glyphCol font b.label (a - labelX b)) 255
         else glyphCol font b.label (a - labelX b)) (bb % 8)
    else L a bb

/-- Modelled from the spec: set_filled (spec section 4.3) — out-of-range
    index is a no-op; otherwise write every interior bit of chrome and the
    framebuffer to the fill value and re-render the label glyph bytes into
    the framebuffer, inverted exactly when filling. -/
def set_filled (c : OChip) (i : ℕ) (fill : Bool) : OChip :=
  match c.buttons.get? i with
  | none => c
  | some b =>
    { c with
      chrome := fillInterior b fill c.chrome
      fb := writeLabel c.font b fill (fillInterior b fill c.fb)
      buttons := c.buttons.set i { b with filled := fill } }

/-- Modelled from the spec: draw_text's effect on one layer (spec section
    4.2) — OR each glyph column byte into the layer at the target page,
    6-pixel pitch per character, columns past the display width clamped. -/
def drawTextLayerOr (font : Char → ℕ → ℕ) (s : String) (x page : ℕ) (L : Layer) : Layer :=
  fun a bb =>
    if bb / 8 = page ∧ x ≤ a ∧ a < x + 6 * s.length ∧ a < 128 then
      L a bb || Nat.testBit (glyphCol font s (a - x)) (bb % 8)
    else L a bb

/-- Modelled from the spec: the five input levels of one tick, already
    converted from active-low pin levels to pressed booleans (section 4.4). -/
structure UIInputs where
  up : Bool
  down : Bool
  left : Bool
  right : Bool
  activate : Bool

/-- Modelled from the spec: the unlock-edge condition (spec section 4.4,
    step 2): Locked screen, Activate pressed now but not on the previous
    tick, and the cursor's cell hit-tests to button index 0. -/
def unlockCond (c : OChip) (i : UIInputs) : Prop :=
  c.screen = Screen.Locked ∧ i.activate = true ∧ c.prevActivate = false ∧
    hit_test c.buttons c.cursorX c.cursorY = some 0

instance (c : OChip) (i : UIInputs) : Decidable (unlockCond c i) := by
  unfold unlockCond; infer_instance

/-- Modelled from the spec: the "loading" message rendered on unlock (spec
    section 4.4, step 2; the spec does not fix its position, the model
    renders it at column 0 of page 0). -/
def loadingStr : String := "loading"

/-- Modelled from the spec: one tick of horizontal movement (spec section
    4.4, step 4) — left decrements x if x > 0, right increments x if
    x < max, both evaluated independently the same tick. -/
def moveX (i : UIInputs) (x : ℕ) : ℕ :=
  let x1 := if i.left = true ∧ 0 < x then x - 1 else x
  if i.right = true ∧ x1 < 127 then x1 + 1 else x1

/-- Modelled from the spec: one tick of vertical movement (spec section 4.4,
    step 4) — up decrements y if y > 0, down increments y if y < max. -/
def moveY (i : UIInputs) (y : ℕ) : ℕ :=
  let y1 := if i.up = true ∧ 0 < y then y - 1 else y
  if i.down = true ∧ y1 < 63 then y1 + 1 else y1

/-- Modelled from the spec: the per-tick algorithm of the controller (spec
    section 4.4).  Step 2: on the unlock edge, transition to Home, clear the
    three layers, the framebuffer and the registry, render the loading
    message (into text and framebuffer), reset the inverted flag, redraw the
    cursor pixel, and do no movement processing.  Otherwise: record Activate
    (step 3), move at most one pixel per axis independently (step 4, y
    capped at 63, x at 127), and if the position changed (step 5) erase the
    old cell, on the Locked screen hit-test old and new cells, update the
    inverted flag and toggle the highlight fills when the target changed, on
    Home force inverted to false, then draw the new cell. -/
def tick (i : UIInputs) (c : OChip) : OChip :=
  if unlockCond c i then
    let c1 := { c with screen := Screen.Home,
                       text := blankLayer, chrome := blankLayer,
                       labelInvert := blankLayer, fb := blankLayer,
                       buttons := ([] : List Button) }
    let c2 := { c1 with text := drawTextLayerOr c.font loadingStr 0 0 c1.text,
                        fb := drawTextLayerOr c.font loadingStr 0 0 c1.fb }
    let c3 := { c2 with cursorInverted := false }
    set_on c3 c3.cursorX c3.cursorY
  else
    let x0 := c.cursorX
    let y0 := c.cursorY
    let x2 := moveX i x0
    let y2 := moveY i y0
    let c1 := { c with prevActivate := i.activate }
    if x2 = x0 ∧ y2 = y0 then c1
    else
      let c2 := set_off c1 x0 y0
      if c.screen = Screen.Locked then
        let oldHit := hit_test c.buttons x0 y0
        let newHit := hit_test c.buttons x2 y2
        let c3 :=
          if newHit ≠ oldHit then
            let ca := match oldHit with
              | some j => set_filled c2 j false
              | none => c2
            match newHit with
            | some j => set_filled ca j true
            | none => ca
          else c2
        let c4 := { c3 with cursorX := x2, cursorY := y2,
                            cursorInverted := newHit.isSome }
        set_on c4 x2 y2
      else
        let c4 := { c2 with cursorX := x2, cursorY := y2,
                            cursorInverted := false }
        set_on c4 x2 y2

/-- A run of the controller over a list of per-tick input levels. -/
def runTicks : List UIInputs → OChip → OChip
  | [], c => c
  | i :: t, c => runTicks t (tick i c)

end W2V

namespace W2V

/-! ### Shared helper lemmas -/

theorem setBit_setBit (f : Layer) (x y : ℕ) (v w : Bool) :
    setBit (setBit f x y v) x y w = setBit f x y w := by
  funext a b
  unfold setBit
  by_cases h : a = x ∧ b = y <;> simp [h]

theorem setBit_self (f : Layer) (x y : ℕ) : setBit f x y (f x y) = f := by
  funext a b
  unfold setBit
  by_cases h : a = x ∧ b = y
  · obtain ⟨h1, h2⟩ := h
    subst h1
    subst h2
    simp
  · simp [h]

theorem compositeAt_nonlabel (c : OChip) (x y : ℕ)
    (hl : c.labelInvert x y = false) :
    compositeAt c x y = (c.chrome x y || c.text x y) := by
  unfold compositeAt
  rw [hl]
  cases hch : c.chrome x y <;> cases ht : c.text x y <;> simp

/-- A concrete all-blank chip used by several witnesses. -/
def chip0 : OChip :=
  { text := blankLayer, chrome := blankLayer, labelInvert := blankLayer,
    fb := blankLayer, cursorX := 10, cursorY := 10, cursorInverted := false,
    screen := Screen.Locked, prevActivate := false, buttons := [],
    font := fun _ _ => 0 }

/-! ### Claim C1 -/

/-- Claim C1: for every in-bounds coordinate (x,y) that is not a
    label_invert pixel, set_on then set_off at (x,y) with the same inverted
    flag and the same layers leaves the framebuffer byte containing (x,y)
    exactly as it was before — the round-trip re-derives the composite
    label > chrome > text > background, so it restores the framebuffer
    whenever the framebuffer held that composite (the spec's standing
    invariant that the framebuffer is the derived composite). -/
theorem claim_C1_set_on_set_off_roundtrip (c : OChip) (x y : ℕ)
    (hx : x < 128) (hy : y < 64)
    (hl : c.labelInvert x y = false)
    (hfb : c.fb x y = (c.chrome x y || c.text x y)) :
    layerByte (set_off (set_on c x y) x y).fb (y / 8) x = layerByte c.fb (y / 8) x ∧
    (set_off (set_on c x y) x y).fb = c.fb := by
  have hib : inBoundsPt x y = true := by simp [inBoundsPt, hx, hy]
  have h1 : set_on c x y = { c with fb := setBit c.fb x y (!c.cursorInverted) } := by
    unfold set_on
    rw [hib, hl]
    simp
  have h2 : (set_off (set_on c x y) x y).fb = c.fb := by
    rw [h1]
    unfold set_off
    rw [hib]
    simp only [Bool.true_eq_false, if_false]
    have hcomp : compositeAt { c with fb := setBit c.fb x y (!c.cursorInverted) } x y
        = (c.chrome x y || c.text x y) := compositeAt_nonlabel _ x y hl
    rw [hcomp, setBit_setBit, ← hfb, setBit_self]
  exact ⟨by rw [h2], h2⟩

/-- Witness for C1 at a concrete chip and pixel. -/
theorem claim_C1_witness :
    layerByte (set_off (set_on chip0 5 7) 5 7).fb 0 5 = layerByte chip0.fb 0 5 :=
  (claim_C1_set_on_set_off_roundtrip chip0 5 7 (by decide) (by decide) rfl rfl).1

/-! ### Claim C6 -/

/-- Claim C6: hit_test returns none exactly when no registered button's
    half-open box contains the point, and otherwise returns the lowest index
    among the buttons whose box contains it (first match of the linear
    scan). -/
theorem claim_C6_hit_test_first_match (bs : List Button) (x y : ℕ) :
    (hit_test bs x y = none ↔
      ∀ i (h : i < bs.length), containsPt (bs.get ⟨i, h⟩) x y = false) ∧
    (∀ i, hit_test bs x y = some i →
      ∃ h : i < bs.length, containsPt (bs.get ⟨i, h⟩) x y = true ∧
        ∀ j (hj : j < bs.length), j < i → containsPt (bs.get ⟨j, hj⟩) x y = false) := by
  induction bs with
  | nil =>
    refine ⟨?_, ?_⟩
    · simp [hit_test]
    · intro i h
      simp [hit_test] at h
  | cons b t ih =>
    by_cases hb : containsPt b x y
    · refine ⟨?_, ?_⟩
      · constructor
        · intro h
          simp [hit_test, hb] at h
        · intro hall
          have := hall 0 (by simp)
          simp [List.get] at this
          rw [hb] at this
          cases this
      · intro i hi
        have hi0 : i = 0 := by
          simp [hit_test, hb] at hi
          omega
        subst hi0
        exact ⟨by simp, by simpa [List.get] using hb, by omega⟩
    · have hb' : containsPt b x y = false := by simpa using hb
      refine ⟨?_, ?_⟩
      · constructor
        · intro h i hi
          have ht : hit_test t x y = none := by
            simp [hit_test, hb'] at h
            exact h
          match i, hi with
          | 0, _ => simpa [List.get] using hb'
          | Nat.succ j, hj =>
            exact (ih.1.mp ht) j (by simpa using hj)
        · intro hall
          have ht : hit_test t x y = none := by
            apply ih.1.mpr
            intro j hj
            have := hall (j + 1) (by simpa using hj)
            simpa [List.get] using this
          simp [hit_test, hb', ht]
      · intro i hi
        simp only [hit_test, hb', Bool.false_eq_true, if_false] at hi
        rcases hmap : hit_test t x y with _ | j
        · rw [hmap] at hi
          simp at hi
        · rw [hmap] at hi
          simp only [Option.map_some', Option.some.injEq] at hi
          obtain ⟨hjlt, hcont, hleast⟩ := ih.2 j hmap
          refine ⟨by simp; omega, ?_, ?_⟩
          · have hget : (b :: t).get ⟨i, by simp; omega⟩ = t.get ⟨j, hjlt⟩ := by
              subst hi
              rfl
            rw [hget]
            exact hcont
          · intro k hk hki
            match k, hk with
            | 0, _ => simpa [List.get] using hb'
            | Nat.succ m, hm =>
              have hmj : m < j := by omega
              exact hleast m (by simpa using hm) hmj

/-- Witness for C6 at a concrete registry: two overlapping buttons share the
    border point (10, 10); the scan returns index 0, the lowest match. -/
theorem claim_C6_witness :
    hit_test [⟨10, 10, 5, 5, "a", false⟩, ⟨8, 8, 20, 20, "b", false⟩] 10 10 = some 0 ∧
    containsPt (⟨10, 10, 5, 5, "a", false⟩ : Button) 10 10 = true ∧
    containsPt (⟨8, 8, 20, 20, "b", false⟩ : Button) 10 10 = true ∧
    hit_test [⟨10, 10, 5, 5, "a", false⟩, ⟨8, 8, 20, 20, "b", false⟩] 200 200 = none := by
  have h := claim_C6_hit_test_first_match
    [⟨10, 10, 5, 5, "a", false⟩, ⟨8, 8, 20, 20, "b", false⟩] 200 200
  refine ⟨by decide, by decide, by decide, ?_⟩
  exact h.1.mpr (by decide)

end W2V

namespace W2V

/-! ### Projection lemmas for the pixel and registry operations -/

@[simp] theorem set_on_screen (c : OChip) (x y : ℕ) : (set_on c x y).screen = c.screen := by
  unfold set_on; split_ifs <;> rfl

@[simp] theorem set_on_cursorX (c : OChip) (x y : ℕ) : (set_on c x y).cursorX = c.cursorX := by
  unfold set_on; split_ifs <;> rfl

@[simp] theorem set_on_cursorY (c : OChip) (x y : ℕ) : (set_on c x y).cursorY = c.cursorY := by
  unfold set_on; split_ifs <;> rfl

@[simp] theorem set_on_cursorInverted (c : OChip) (x y : ℕ) :
    (set_on c x y).cursorInverted = c.cursorInverted := by
  unfold set_on; split_ifs <;> rfl

@[simp] theorem set_on_buttons (c : OChip) (x y : ℕ) : (set_on c x y).buttons = c.buttons := by
  unfold set_on; split_ifs <;> rfl

@[simp] theorem set_on_chrome (c : OChip) (x y : ℕ) : (set_on c x y).chrome = c.chrome := by
  unfold set_on; split_ifs <;> rfl

@[simp] theorem set_on_text (c : OChip) (x y : ℕ) : (set_on c x y).text = c.text := by
  unfold set_on; split_ifs <;> rfl

@[simp] theorem set_on_labelInvert (c : OChip) (x y : ℕ) :
    (set_on c x y).labelInvert = c.labelInvert := by
  unfold set_on; split_ifs <;> rfl

@[simp] theorem set_off_screen (c : OChip) (x y : ℕ) : (set_off c x y).screen = c.screen := by
  unfold set_off; split_ifs <;> rfl

@[simp] theorem set_off_cursorX (c : OChip) (x y : ℕ) : (set_off c x y).cursorX = c.cursorX := by
  unfold set_off; split_ifs <;> rfl

@[simp] theorem set_off_cursorY (c : OChip) (x y : ℕ) : (set_off c x y).cursorY = c.cursorY := by
  unfold set_off; split_ifs <;> rfl

@[simp] theorem set_off_cursorInverted (c : OChip) (x y : ℕ) :
    (set_off c x y).cursorInverted = c.cursorInverted := by
  unfold set_off; split_ifs <;> rfl

@[simp] theorem set_off_buttons (c : OChip) (x y : ℕ) : (set_off c x y).buttons = c.buttons := by
  unfold set_off; split_ifs <;> rfl

@[simp] theorem set_filled_screen (c : OChip) (i : ℕ) (v : Bool) :
    (set_filled c i v).screen = c.screen := by
  unfold set_filled
  rcases c.buttons.get? i with _ | b <;> rfl

@[simp] theorem set_filled_cursorX (c : OChip) (i : ℕ) (v : Bool) :
    (set_filled c i v).cursorX = c.cursorX := by
  unfold set_filled
  rcases c.buttons.get? i with _ | b <;> rfl

@[simp] theorem set_filled_cursorY (c : OChip) (i : ℕ) (v : Bool) :
    (set_filled c i v).cursorY = c.cursorY := by
  unfold set_filled
  rcases c.buttons.get? i with _ | b <;> rfl

@[simp] theorem set_filled_cursorInverted (c : OChip) (i : ℕ) (v : Bool) :
    (set_filled c i v).cursorInverted = c.cursorInverted := by
  unfold set_filled
  rcases c.buttons.get? i with _ | b <;> rfl

/-! ### The screen value after one tick -/

theorem tick_screen (i : UIInputs) (c : OChip) :
    (tick i c).screen = if unlockCond c i then Screen.Home else c.screen := by
  by_cases hu : unlockCond c i
  · simp [tick, hu]
  · simp only [tick, hu, if_false, ite_false]
    split_ifs <;> first
      | rfl
      | (split <;> (try split) <;> simp)
      | simp

end W2V

namespace W2V

theorem moveX_facts (i : UIInputs) (x : ℕ) :
    moveX i x ≤ x + 1 ∧ x ≤ moveX i x + 1 ∧ (x < 128 → moveX i x < 128) := by
  simp only [moveX]
  split_ifs <;> omega

theorem moveY_facts (i : UIInputs) (y : ℕ) :
    moveY i y ≤ y + 1 ∧ y ≤ moveY i y + 1 ∧ (y < 64 → moveY i y < 64) := by
  simp only [moveY]
  split_ifs <;> omega

theorem moveY_zero_up (i : UIInputs) (hdown : i.down = false) : moveY i 0 = 0 := by
  simp [moveY, hdown]

theorem tick_cursorX (i : UIInputs) (c : OChip) (hu : ¬ unlockCond c i) :
    (tick i c).cursorX = moveX i c.cursorX := by
  simp only [tick, hu, if_false, ite_false]
  split_ifs with h1 <;> first
    | (obtain ⟨hh, -⟩ := h1; simp [hh])
    | simp
    | (split <;> (try split) <;> simp)

theorem tick_cursorY (i : UIInputs) (c : OChip) (hu : ¬ unlockCond c i) :
    (tick i c).cursorY = moveY i c.cursorY := by
  simp only [tick, hu, if_false, ite_false]
  split_ifs with h1 <;> first
    | (obtain ⟨-, hh⟩ := h1; simp [hh])
    | simp
    | (split <;> (try split) <;> simp)

theorem tick_cursor_unlock (i : UIInputs) (c : OChip) (hu : unlockCond c i) :
    (tick i c).cursorX = c.cursorX ∧ (tick i c).cursorY = c.cursorY := by
  constructor <;> simp [tick, hu]

end W2V

namespace W2V

/-! ### Claim C4 -/

/-- Claim C4: the screen state is one-way — no tick maps Home back to
    Locked, and once a run has reached Home every extension of the run stays
    at Home; with only two states this means the screen transitions at most
    once, from Locked to Home. -/
theorem claim_C4_screen_one_way :
    (∀ (c : OChip) (i : UIInputs),
      (tick i c).screen = Screen.Locked → c.screen = Screen.Locked) ∧
    (∀ (c : OChip) (l m : List UIInputs),
      (runTicks l c).screen = Screen.Home →
        (runTicks (l ++ m) c).screen = Screen.Home) := by
  have hstep : ∀ (c : OChip) (i : UIInputs),
      c.screen = Screen.Home → (tick i c).screen = Screen.Home := by
    intro c i h
    rw [tick_screen]
    split_ifs with hu
    · rfl
    · exact h
  have haux : ∀ (m : List UIInputs) (d : OChip),
      d.screen = Screen.Home → (runTicks m d).screen = Screen.Home := by
    intro m
    induction m with
    | nil => intro d h; exact h
    | cons i t ih => intro d h; exact ih (tick i d) (hstep d i h)
  have happ : ∀ (l m : List UIInputs) (c : OChip),
      runTicks (l ++ m) c = runTicks m (runTicks l c) := by
    intro l
    induction l with
    | nil => intro m c; rfl
    | cons i t ihl => intro m c; exact ihl m (tick i c)
  refine ⟨?_, ?_⟩
  · intro c i h
    rw [tick_screen] at h
    split_ifs at h with hu
    · first
        | exact hu.1
        | exact h
  · intro c l m h
    rw [happ]
    exact haux m (runTicks l c) h

/-- A tick input with nothing pressed, for witnesses. -/
def inpNone : UIInputs := ⟨false, false, false, false, false⟩

/-- A Home-screen chip, for witnesses. -/
def chipHome : OChip := { chip0 with screen := Screen.Home }

/-- Witness for C4 at concrete states. -/
theorem claim_C4_witness :
    chip0.screen = Screen.Locked ∧
    (runTicks ([] ++ [inpNone]) chipHome).screen = Screen.Home := by
  refine ⟨claim_C4_screen_one_way.1 chip0 inpNone ?_,
    claim_C4_screen_one_way.2 chipHome [] [inpNone] rfl⟩
  decide

/-! ### Claim C5 -/

/-- Counterexample to claim C5 as stated: the claim says a tick with up
    pressed while cursor.y = 0 leaves cursor.y = 0, quantifying over all
    input combinations; but with up and down pressed together on the Home
    screen at y = 0, up does nothing (y is already 0) while down increments,
    so the tick ends with cursor.y = 1. -/
theorem claim_C5_counterexample :
    (⟨true, true, false, false, false⟩ : UIInputs).up = true ∧
    ({ chipHome with cursorY := 0 } : OChip).cursorY = 0 ∧
    (tick ⟨true, true, false, false, false⟩
      { chipHome with cursorY := 0 }).cursorY = 1 := by
  refine ⟨rfl, rfl, ?_⟩
  decide

/-- Claim C5 (amended): the cursor never leaves [0,128) x [0,64) — a tick
    from an in-bounds position lands in bounds, each axis changes by at most
    one pixel per tick, and a tick with up pressed and down not pressed
    while cursor.y = 0 leaves cursor.y = 0 (the amendment adds "down not
    pressed", which the counterexample above forces). -/
theorem claim_C5_cursor_bounds (c : OChip) (i : UIInputs)
    (hx : c.cursorX < 128) (hy : c.cursorY < 64) :
    (tick i c).cursorX < 128 ∧ (tick i c).cursorY < 64 ∧
    (tick i c).cursorX ≤ c.cursorX + 1 ∧ c.cursorX ≤ (tick i c).cursorX + 1 ∧
    (tick i c).cursorY ≤ c.cursorY + 1 ∧ c.cursorY ≤ (tick i c).cursorY + 1 ∧
    (i.up = true → i.down = false → c.cursorY = 0 → (tick i c).cursorY = 0) := by
  by_cases hu : unlockCond c i
  · obtain ⟨h1, h2⟩ := tick_cursor_unlock i c hu
    rw [h1, h2]
    exact ⟨hx, hy, by omega, by omega, by omega, by omega, fun _ _ h => h⟩
  · rw [tick_cursorX i c hu, tick_cursorY i c hu]
    obtain ⟨ha1, ha2, ha3⟩ := moveX_facts i c.cursorX
    obtain ⟨hb1, hb2, hb3⟩ := moveY_facts i c.cursorY
    refine ⟨ha3 hx, hb3 hy, ha1, ha2, hb1, hb2, ?_⟩
    intro hup hdown h0
    rw [h0]
    exact moveY_zero_up i hdown

/-- Witness for C5 at a concrete chip and input. -/
theorem claim_C5_witness :
    (tick ⟨true, false, false, false, false⟩ { chipHome with cursorY := 0 }).cursorY = 0 := by
  have h := claim_C5_cursor_bounds { chipHome with cursorY := 0 }
    ⟨true, false, false, false, false⟩ (by decide) (by decide)
  exact h.2.2.2.2.2.2 rfl rfl rfl

end W2V

namespace W2V

/-! ### Claim C3 -/

/-- Claim C3: the Locked-to-Home transition happens on a tick exactly when
    the screen is Locked, Activate is pressed on this tick, it was not
    pressed on the previous tick, and hit_test at the cursor resolves to
    button 0; and when it fires, the chrome and label layers and the button
    registry are cleared, the text layer holds exactly the loading message
    rendered on a blank layer, the cursor does not move, its inverted flag
    is reset, and the cursor pixel is redrawn (its framebuffer bit ends set
    when the cursor is in bounds).  If any condition fails, the screen does
    not change. -/
theorem claim_C3_unlock_edge (c : OChip) (i : UIInputs) :
    ((c.screen = Screen.Locked ∧ (tick i c).screen = Screen.Home) ↔ unlockCond c i) ∧
    (unlockCond c i →
      (tick i c).screen = Screen.Home ∧
      (tick i c).buttons = [] ∧
      (tick i c).chrome = blankLayer ∧
      (tick i c).labelInvert = blankLayer ∧
      (tick i c).text = drawTextLayerOr c.font loadingStr 0 0 blankLayer ∧
      (tick i c).cursorX = c.cursorX ∧
      (tick i c).cursorY = c.cursorY ∧
      (tick i c).cursorInverted = false ∧
      (inBoundsPt c.cursorX c.cursorY = true →
        (tick i c).fb c.cursorX c.cursorY = true)) := by
  constructor
  · constructor
    · rintro ⟨hl, hh⟩
      by_contra hu
      rw [tick_screen, if_neg hu, hl] at hh
      exact Screen.noConfusion hh
    · intro hu
      exact ⟨hu.1, by rw [tick_screen, if_pos hu]⟩
  · intro hu
    have ht : tick i c = set_on
        { c with screen := Screen.Home,
                 text := drawTextLayerOr c.font loadingStr 0 0 blankLayer,
                 chrome := blankLayer, labelInvert := blankLayer,
                 fb := drawTextLayerOr c.font loadingStr 0 0 blankLayer,
                 buttons := ([] : List Button), cursorInverted := false }
        c.cursorX c.cursorY := by
      unfold tick
      rw [if_pos hu]
    rw [ht]
    refine ⟨by simp, by simp, by simp, by simp, by simp, by simp, by simp, by simp, ?_⟩
    intro hib
    unfold set_on
    rw [hib]
    simp [blankLayer, setBit]

/-- A Locked chip whose cursor sits inside its single button, for the C3
    witness. -/
def chipC3 : OChip :=
  { chip0 with cursorX := 25, cursorY := 50,
               buttons := [⟨3, 46, 44, 12, "unlock", false⟩] }

/-- The Activate-only input, for witnesses. -/
def inpAct : UIInputs := ⟨false, false, false, false, true⟩

/-- Witness for C3: at the concrete state the unlock edge fires with all its
    specified effects. -/
theorem claim_C3_witness :
    (tick inpAct chipC3).screen = Screen.Home ∧
    (tick inpAct chipC3).buttons = [] ∧
    (tick inpAct chipC3).cursorInverted = false ∧
    (tick inpAct chipC3).cursorX = 25 := by
  have hu : unlockCond chipC3 inpAct := ⟨rfl, rfl, rfl, by decide⟩
  have h := (claim_C3_unlock_edge chipC3 inpAct).2 hu
  exact ⟨h.1, h.2.1, h.2.2.2.2.2.2.2.1, h.2.2.2.2.2.1⟩

end W2V

namespace W2V

/-! ### Claim C2 -/

theorem interiorPt_filled (b : Button) (v : Bool) (x y : ℕ) :
    interiorPt { b with filled := v } x y = interiorPt b x y := rfl

theorem labelRegionPt_filled (b : Button) (v : Bool) (x y : ℕ) :
    labelRegionPt { b with filled := v } x y = labelRegionPt b x y := rfl

theorem labelX_filled (b : Button) (v : Bool) :
    labelX { b with filled := v } = labelX b := rfl

/-- Claim C2: for a registered button currently rendered unfilled — interior
    chrome and framebuffer bits clear away from the label, label bytes equal
    to the uninverted glyph columns — set_filled(i, true) followed by
    set_filled(i, false) restores the chrome layer and the framebuffer
    exactly (interior region and label glyph bytes included): fill then
    unfill is an involution on the rendered state. -/
theorem claim_C2_set_filled_involution (c : OChip) (k : ℕ) (b : Button)
    (hget : c.buttons.get? k = some b)
    (hch : ∀ x y, inBoundsPt x y = true → interiorPt b x y = true →
      c.chrome x y = false)
    (hfb1 : ∀ x y, inBoundsPt x y = true → interiorPt b x y = true →
      labelRegionPt b x y = false → c.fb x y = false)
    (hfb2 : ∀ x y, inBoundsPt x y = true → labelRegionPt b x y = true →
      c.fb x y = Nat.testBit (glyphCol c.font b.label (x - labelX b)) (y % 8)) :
    (set_filled (set_filled c k true) k false).chrome = c.chrome ∧
    (set_filled (set_filled c k true) k false).fb = c.fb := by
  have hk : k < c.buttons.length := by
    rcases List.get?_eq_some.mp hget with ⟨h, -⟩
    exact h
  have h1 : set_filled c k true =
      { c with chrome := fillInterior b true c.chrome,
               fb := writeLabel c.font b true (fillInterior b true c.fb),
               buttons := c.buttons.set k { b with filled := true } } := by
    unfold set_filled
    rw [hget]
  have hget2 : (c.buttons.set k { b with filled := true }).get? k
      = some { b with filled := true } :=
    List.get?_set_eq_of_lt _ (by simpa using hk)
  have h2 : set_filled (set_filled c k true) k false =
      { c with chrome := fillInterior { b with filled := true } false
                 (fillInterior b true c.chrome),
               fb := writeLabel c.font { b with filled := true } false
                 (fillInterior { b with filled := true } false
                   (writeLabel c.font b true (fillInterior b true c.fb))),
               buttons := (c.buttons.set k { b with filled := true }).set k
                 { b with filled := false } } := by
    rw [h1]
    unfold set_filled
    rw [hget2]
  rw [h2]
  constructor
  · funext x y
    show fillInterior { b with filled := true } false
      (fillInterior b true c.chrome) x y = c.chrome x y
    unfold fillInterior
    rw [interiorPt_filled]
    by_cases h : inBoundsPt x y = true ∧ interiorPt b x y = true
    · simp only [h, and_self, if_true, if_pos h]
      exact (hch x y h.1 h.2).symm
    · simp only [if_neg h]
  · funext x y
    show writeLabel c.font { b with filled := true } false
      (fillInterior { b with filled := true } false
        (writeLabel c.font b true (fillInterior b true c.fb))) x y = c.fb x y
    unfold writeLabel fillInterior
    simp only [interiorPt_filled, labelRegionPt_filled]
    by_cases hA : inBoundsPt x y = true ∧ labelRegionPt b x y = true
    · have hv := hfb2 x y hA.1 hA.2
      simp [hA, hv, labelX_filled]
    · by_cases hB : inBoundsPt x y = true ∧ interiorPt b x y = true
      · have hlr : labelRegionPt b x y = false := by
          rcases Bool.eq_false_or_eq_true (labelRegionPt b x y) with h | h
          · exact absurd ⟨hB.1, h⟩ hA
          · exact h
        have hv := hfb1 x y hB.1 hB.2 hlr
        simp [hA, hB, hv, hlr, labelX_filled]
      · simp [hA, hB]

end W2V

namespace W2V

/-- Chip with one registered unfilled button over blank layers, for the C2
    witness (its font renders every glyph blank, so the blank framebuffer is
    exactly the unfilled rendering). -/
def chipB : OChip := { chip0 with buttons := [⟨3, 46, 44, 12, "unlock", false⟩] }

/-- Witness for C2 at the concrete registry. -/
theorem claim_C2_witness :
    (set_filled (set_filled chipB 0 true) 0 false).chrome = chipB.chrome ∧
    (set_filled (set_filled chipB 0 true) 0 false).fb = chipB.fb :=
  claim_C2_set_filled_involution chipB 0 ⟨3, 46, 44, 12, "unlock", false⟩ rfl
    (fun _ _ _ _ => rfl) (fun _ _ _ _ _ => rfl)
    (fun x y _ _ => by simp [chipB, chip0, blankLayer, glyphCol])

end W2V

namespace W2V

/-! ### Claim C7 -/

/-- Counterexample to claim C7 as stated: draw_string does not always
    advance the horizontal position by 6 — when the advanced position would
    not leave room for a 5-pixel glyph before column 240 it wraps back to
    the starting x and moves 9 rows down.  Drawing one character at
    x = cx = 231 ends with the position at 231 (and y at 9), not at 237. -/
theorem claim_C7_counterexample :
    (draw_string_go 231 ('a' :: []) 231 0).1 = 231 ∧
    (231 : ℕ) + 6 ≠ 231 ∧
    (draw_string_go 231 ('a' :: []) 231 0).2.1 = 9 := by
  refine ⟨rfl, by decide, rfl⟩

/-- Claim C7 (amended): the per-character position update of draw_string is
    the same for every character (fixed pitch, independent of the glyph's
    drawn width); it advances the horizontal position by exactly 6 pixels
    whenever that leaves room for a full glyph before column 240
    (cx ≤ 229), and otherwise wraps to the starting x and moves 9 rows
    down; characters outside the guard range [32,126] draw no pixels at
    all — exactly like the space glyph — while still consuming the same
    6-pixel pitch. -/
theorem claim_C7_fixed_pitch :
    (∀ (x cx y : ℕ) (c : Char) (t : List Char),
      (draw_string_go x (c :: t) cx y).1 =
        (draw_string_go x t (advancePos x cx y).1 (advancePos x cx y).2).1 ∧
      (draw_string_go x (c :: t) cx y).2.1 =
        (draw_string_go x t (advancePos x cx y).1 (advancePos x cx y).2).2.1) ∧
    (∀ x cx y, cx ≤ 229 → advancePos x cx y = (cx + 6, y)) ∧
    (∀ x cx y, 230 ≤ cx → cx + 6 < 65536 → advancePos x cx y = (x, (y + 9) % 65536)) ∧
    (∀ (c : Char) (a b : ℕ), c.toNat < 32 ∨ 126 < c.toNat →
      draw_char_pixels c a b = []) ∧
    (∀ a b, draw_char_pixels ' ' a b = []) := by
  refine ⟨?_, ?_, ?_, ?_, ?_⟩
  · intro x cx y c t
    exact ⟨rfl, rfl⟩
  · intro x cx y h
    have h1 : (cx + 6) % 65536 = cx + 6 := Nat.mod_eq_of_lt (by omega)
    simp only [advancePos, h1]
    rw [if_neg (by omega)]
  · intro x cx y h h2
    have h1 : (cx + 6) % 65536 = cx + 6 := Nat.mod_eq_of_lt (by omega)
    simp only [advancePos, h1]
    rw [if_pos (by omega)]
  · intro c a b h
    unfold draw_char_pixels
    rw [if_pos h]
  · intro a b
    rfl

/-- Witness for C7 at concrete positions and characters. -/
theorem claim_C7_witness :
    advancePos 10 100 0 = (106, 0) ∧
    advancePos 10 231 0 = (10, 9) ∧
    draw_char_pixels (Char.ofNat 200) 3 4 = [] := by
  have h := claim_C7_fixed_pitch
  exact ⟨h.2.1 10 100 0 (by omega), h.2.2.1 10 231 0 (by omega) (by omega),
    h.2.2.2.1 (Char.ofNat 200) 3 4 (by decide)⟩

/-! ### Parsing lemmas for claims C8 and C9 -/

/-- The first character of `rest` (if any) is not a digit. -/
def headNotDigit (rest : List Char) : Prop :=
  ∀ c t, rest = c :: t → isDigitChar c = false

theorem headNotDigit_nil : headNotDigit [] := by
  intro c t h
  cases h

theorem not_space_of_digit (c : Char) (h : isDigitChar c = true) :
    isSpaceChar c = false := by
  unfold isDigitChar at h
  unfold isSpaceChar
  rw [decide_eq_true_eq] at h
  rw [decide_eq_false_iff_not]
  rintro (rfl | rfl | rfl | rfl) <;> exact absurd h (by decide)

theorem op_char_cases (op : Char) (h : isOpChar op = true) :
    op = '+' ∨ op = '-' ∨ op = '*' ∨ op = '/' := by
  unfold isOpChar at h
  rw [decide_eq_true_eq] at h
  exact h

theorem op_not_space (op : Char) (h : isOpChar op = true) :
    isSpaceChar op = false := by
  rcases op_char_cases op h with rfl | rfl | rfl | rfl <;> decide

theorem op_not_digit (op : Char) (h : isOpChar op = true) :
    isDigitChar op = false := by
  rcases op_char_cases op h with rfl | rfl | rfl | rfl <;> decide

theorem op_not_alpha (op : Char) (h : isOpChar op = true) :
    isAlphaChar op = false := by
  rcases op_char_cases op h with rfl | rfl | rfl | rfl <;> decide

theorem skip_whitespace_head (c : Char) (t : List Char) (h : isSpaceChar c = false) :
    skip_whitespace (c :: t) = c :: t := by
  unfold skip_whitespace
  rw [h]
  simp

theorem parse_number_aux_digits (ds : List Char) :
    ∀ (acc : ℕ) (rest : List Char), (∀ c ∈ ds, isDigitChar c = true) →
      headNotDigit rest →
      parse_number_aux acc (ds ++ rest) =
        (ds.foldl (fun a c => a * 10 + (c.toNat - 48)) acc, rest) := by
  induction ds with
  | nil =>
    intro acc rest hds hrest
    cases rest with
    | nil => rfl
    | cons c t =>
      have hc : isDigitChar c = false := hrest c t rfl
      simp [parse_number_aux, hc]
  | cons d ds ih =>
    intro acc rest hds hrest
    have hd : isDigitChar d = true := hds d (by simp)
    show parse_number_aux acc (d :: (ds ++ rest)) = _
    unfold parse_number_aux
    rw [hd]
    simp only [if_true]
    rw [ih (acc * 10 + (d.toNat - 48)) rest (fun c hc => hds c (by simp [hc])) hrest]
    rfl

theorem parse_number_digits (ds : List Char) (rest : List Char)
    (hds : ∀ c ∈ ds, isDigitChar c = true) (hrest : headNotDigit rest) :
    parse_number (ds ++ rest) = (digitsVal ds, rest) := by
  unfold parse_number digitsVal
  exact parse_number_aux_digits ds 0 rest hds hrest

theorem evalE_first_number (fuel : ℕ) (st : Interp) (d : Char) (ds rest : List Char)
    (hds : ∀ c ∈ (d :: ds), isDigitChar c = true) (hrest : headNotDigit rest) :
    evalE (fuel + 1) none st ((d :: ds) ++ rest) =
      evalE fuel (some ((digitsVal (d :: ds) : ℕ) : Int)) st rest := by
  have hd := hds d (by simp)
  have hp : parse_number ((d :: ds) ++ rest) = (digitsVal (d :: ds), rest) :=
    parse_number_digits (d :: ds) rest hds hrest
  show evalE (fuel + 1) none st (d :: (ds ++ rest)) = _
  rw [evalE]
  rw [skip_whitespace_head d _ (not_space_of_digit d hd)]
  simp only [hd, if_true]
  rw [← List.cons_append, hp]

theorem evalE_loop_end (fuel : ℕ) (st : Interp) (r : Int) :
    evalE (fuel + 1) (some r) st [] = (r, st, []) := rfl

theorem evalE_loop_op (fuel : ℕ) (st : Interp) (r : Int) (op d : Char)
    (ds rest : List Char) (hop : isOpChar op = true)
    (hds : ∀ c ∈ (d :: ds), isDigitChar c = true) (hrest : headNotDigit rest)
    (hdiv : op = '/' → digitsVal (d :: ds) ≠ 0) :
    evalE (fuel + 1) (some r) st (op :: ((d :: ds) ++ rest)) =
      evalE fuel (some (applyBin op r ((digitsVal (d :: ds) : ℕ) : Int))) st rest := by
  have hd := hds d (by simp)
  have hp : parse_number ((d :: ds) ++ rest) = (digitsVal (d :: ds), rest) :=
    parse_number_digits (d :: ds) rest hds hrest
  rw [evalE]
  rw [skip_whitespace_head op _ (op_not_space op hop)]
  simp only [hop, if_true]
  rw [List.cons_append]
  rw [skip_whitespace_head d _ (not_space_of_digit d hd)]
  simp only [hd, if_true]
  rw [← List.cons_append, hp]
  simp only []
  rw [if_neg ?hngz]
  case hngz =>
    rintro ⟨h1, h2⟩
    exact hdiv h1 (by exact_mod_cast h2)

/-! ### Claim C8 -/

/-- Claim C8: the expression evaluator applies +, -, *, / strictly left to
    right with no precedence: evaluating the unparenthesised expression
    "a op1 b op2 c" (number literals a, b, c) yields (a op1 b) op2 c, leaves
    the interpreter state untouched, and consumes the whole string.  In
    particular "2+3*4" evaluates to (2+3)*4 = 20, not 14 (see the witness). -/
theorem claim_C8_left_to_right (da db dc : List Char) (op1 op2 : Char) (st : Interp)
    (ha : da ≠ []) (hb : db ≠ []) (hc : dc ≠ [])
    (hda : ∀ c ∈ da, isDigitChar c = true) (hdb : ∀ c ∈ db, isDigitChar c = true)
    (hdc : ∀ c ∈ dc, isDigitChar c = true)
    (hop1 : isOpChar op1 = true) (hop2 : isOpChar op2 = true)
    (hdiv1 : op1 = '/' → digitsVal db ≠ 0) (hdiv2 : op2 = '/' → digitsVal dc ≠ 0) :
    eval_expression st (da ++ op1 :: (db ++ op2 :: dc)) =
      (applyBin op2 (applyBin op1 ((digitsVal da : ℕ) : Int) ((digitsVal db : ℕ) : Int))
        ((digitsVal dc : ℕ) : Int), st, []) := by
  obtain ⟨a1, da', rfl⟩ : ∃ a1 da', da = a1 :: da' := by
    cases da with
    | nil => exact absurd rfl ha
    | cons a1 da' => exact ⟨a1, da', rfl⟩
  obtain ⟨b1, db', rfl⟩ : ∃ b1 db', db = b1 :: db' := by
    cases db with
    | nil => exact absurd rfl hb
    | cons b1 db' => exact ⟨b1, db', rfl⟩
  obtain ⟨c1, dc', rfl⟩ : ∃ c1 dc', dc = c1 :: dc' := by
    cases dc with
    | nil => exact absurd rfl hc
    | cons c1 dc' => exact ⟨c1, dc', rfl⟩
  have hnd1 : headNotDigit (op1 :: ((b1 :: db') ++ op2 :: (c1 :: dc'))) := by
    intro c t h
    injection h with h1 _
    subst h1
    exact op_not_digit _ hop1
  have hnd2 : headNotDigit (op2 :: (c1 :: dc')) := by
    intro c t h
    injection h with h1 _
    subst h1
    exact op_not_digit _ hop2
  unfold eval_expression
  set L := ((a1 :: da') ++ op1 :: ((b1 :: db') ++ op2 :: (c1 :: dc'))).length with hL
  have hL1 : 1 ≤ L := by
    rw [hL]
    simp [List.length_append]
  rw [show 2 * L + 3 = (2 * L + 2) + 1 from rfl]
  rw [evalE_first_number (2 * L + 2) st a1 da' _ hda hnd1]
  rw [show 2 * L + 2 = (2 * L + 1) + 1 from rfl]
  rw [evalE_loop_op (2 * L + 1) st _ op1 b1 db' _ hop1 hdb hnd2 hdiv1]
  rw [show 2 * L + 1 = (2 * L) + 1 from rfl]
  rw [show (op2 :: (c1 :: dc') : List Char) = op2 :: ((c1 :: dc') ++ []) by simp]
  rw [evalE_loop_op (2 * L) st _ op2 c1 dc' [] hop2 hdc headNotDigit_nil hdiv2]
  obtain ⟨g, hg⟩ : ∃ g, 2 * L = g + 1 := ⟨2 * L - 1, by omega⟩
  rw [hg, evalE_loop_end]

/-- Witness for C8: "2+3*4" evaluates to 20, not 14. -/
theorem claim_C8_witness :
    eval_expression ⟨false, "", []⟩ ('2' :: '+' :: '3' :: '*' :: '4' :: []) =
      (20, ⟨false, "", []⟩, []) := by
  have h := claim_C8_left_to_right ('2' :: []) ('3' :: []) ('4' :: []) '+' '*'
    ⟨false, "", []⟩ (by decide) (by decide) (by decide) (by decide) (by decide)
    (by decide) (by decide) (by decide)
    (fun hcon => absurd hcon (by decide)) (fun hcon => absurd hcon (by decide))
  exact h.trans (by decide)

/-! ### Claim C9 -/

/-- Claim C9: the division operator in eval_expression is guarded — if the
    right-hand operand (a number literal here) evaluates to 0 the evaluator
    performs no division: it immediately returns 0 with the error flag set
    and the message "Division by zero"; the division Int.tdiv is applied
    exactly in the complementary case, when the operand is nonzero; at the
    top level, evaluating "a/0" returns 0 with that error state.  The model
    is a total function, matching the claim that evaluation is total. -/
theorem claim_C9_division_by_zero_guard :
    (∀ (fuel : ℕ) (st : Interp) (r : Int) (d : Char) (ds rest : List Char),
      (∀ c ∈ (d :: ds), isDigitChar c = true) → headNotDigit rest →
      digitsVal (d :: ds) = 0 →
      evalE (fuel + 1) (some r) st ('/' :: ((d :: ds) ++ rest)) =
        (0, setError st ("Division by zero"), rest)) ∧
    (∀ (fuel : ℕ) (st : Interp) (r : Int) (d : Char) (ds rest : List Char),
      (∀ c ∈ (d :: ds), isDigitChar c = true) → headNotDigit rest →
      digitsVal (d :: ds) ≠ 0 →
      evalE (fuel + 1) (some r) st ('/' :: ((d :: ds) ++ rest)) =
        evalE fuel (some (Int.tdiv r ((digitsVal (d :: ds) : ℕ) : Int))) st rest) ∧
    (∀ (st : Interp) (d : Char) (ds : List Char),
      (∀ c ∈ (d :: ds), isDigitChar c = true) →
      eval_expression st ((d :: ds) ++ '/' :: '0' :: []) =
        (0, setError st ("Division by zero"), [])) := by
  have hzero : ∀ (fuel : ℕ) (st : Interp) (r : Int) (d : Char) (ds rest : List Char),
      (∀ c ∈ (d :: ds), isDigitChar c = true) → headNotDigit rest →
      digitsVal (d :: ds) = 0 →
      evalE (fuel + 1) (some r) st ('/' :: ((d :: ds) ++ rest)) =
        (0, setError st ("Division by zero"), rest) := by
    intro fuel st r d ds rest hds hrest h0
    have hd := hds d (by simp)
    have hp : parse_number ((d :: ds) ++ rest) = (digitsVal (d :: ds), rest) :=
      parse_number_digits (d :: ds) rest hds hrest
    rw [evalE]
    rw [skip_whitespace_head '/' _ (by decide)]
    simp only [show isOpChar '/' = true from rfl, if_true]
    rw [List.cons_append]
    rw [skip_whitespace_head d _ (not_space_of_digit d hd)]
    simp only [hd, if_true]
    rw [← List.cons_append, hp]
    simp only []
    rw [if_pos ?hpos]
    case hpos =>
      refine ⟨?_, ?_⟩
      · trivial
      · exact_mod_cast h0
  refine ⟨hzero, ?_, ?_⟩
  · intro fuel st r d ds rest hds hrest hnz
    have h := evalE_loop_op fuel st r '/' d ds rest (by decide) hds hrest (fun _ => hnz)
    simpa [applyBin] using h
  · intro st d ds hds
    have hnd : headNotDigit ('/' :: '0' :: []) := by
      intro c t h
      injection h with h1 _
      subst h1
      decide
    unfold eval_expression
    set L := ((d :: ds) ++ '/' :: '0' :: []).length with hL
    rw [show 2 * L + 3 = (2 * L + 2) + 1 from rfl]
    rw [evalE_first_number (2 * L + 2) st d ds _ hds hnd]
    rw [show 2 * L + 2 = (2 * L + 1) + 1 from rfl]
    rw [show ('/' :: '0' :: [] : List Char) = '/' :: (('0' :: []) ++ []) by simp]
    rw [hzero (2 * L + 1) st _ '0' [] [] (by decide) headNotDigit_nil (by decide)]

/-- Witness for C9 at a concrete division by zero. -/
theorem claim_C9_witness :
    evalE 1 (some 8) ⟨false, "", []⟩ ('/' :: (('0' :: []) ++ [])) =
      (0, setError ⟨false, "", []⟩ ("Division by zero"), []) ∧
    eval_expression ⟨false, "", []⟩ ('8' :: '/' :: '0' :: []) =
      (0, setError ⟨false, "", []⟩ ("Division by zero"), []) := by
  have h := claim_C9_division_by_zero_guard
  refine ⟨h.1 0 ⟨false, "", []⟩ 8 '0' [] [] (by decide) headNotDigit_nil (by decide), ?_⟩
  exact h.2.2 ⟨false, "", []⟩ '8' [] (by decide)

/-! ### Claim C10 -/

/-- A root-directory sector holding one entry named "PROGRAM.C" whose
    first-cluster field (bytes 26/27) is zero; all other bytes are 0. -/
def rootCE : ℕ → ℕ := fun i =>
  ([80, 82, 79, 71, 82, 65, 77, 32, 67, 32, 32] : List ℕ).getD i 0

/-- A card on which every sector read succeeds (every sector returns the
    rootCE bytes). -/
def cardCE : ℕ → Option (ℕ → ℕ) := fun _ => some rootCE

/-- Counterexample to claim C10 as stated: on cardCE the root directory
    holds an 8.3 entry rendering as "PROGRAM.C" and every sector (hence any
    data sector) is readable, yet read_file fails, because the entry's
    recorded first-cluster field is 0 and read_file treats cluster 0 as
    "file not found" (src/example.c:523-526).  So success is not equivalent
    to "entry exists and data sector readable". -/
theorem claim_C10_counterexample :
    buildName rootCE 0 = "PROGRAM.C" ∧
    cardCE 2048 = some rootCE ∧
    (cardCE 2078).isSome = true ∧
    read_file cardCE ("PROGRAM.C") 4096 = none := by
  refine ⟨by decide, rfl, rfl, by decide⟩

theorem scanGo_finds (sec : ℕ → ℕ) : ∀ ks : List ℕ, scanGo sec ks ≠ 0 →
    ∃ k ∈ ks, sbyte sec (32 * k) ≠ 0 ∧ sbyte sec (32 * k) ≠ 229 ∧
      buildName sec (32 * k) = "PROGRAM.C" := by
  intro ks
  induction ks with
  | nil => intro h; exact absurd rfl h
  | cons k t ih =>
    intro h
    unfold scanGo at h
    by_cases h0 : sbyte sec (32 * k) = 0
    · rw [if_pos h0] at h
      exact absurd rfl h
    · rw [if_neg h0] at h
      by_cases h229 : sbyte sec (32 * k) = 229
      · rw [if_pos h229] at h
        obtain ⟨k', hk', hrest⟩ := ih h
        exact ⟨k', by simp [hk'], hrest⟩
      · rw [if_neg h229] at h
        by_cases hname : buildName sec (32 * k) = "PROGRAM.C"
        · exact ⟨k, by simp, h0, h229, hname⟩
        · rw [if_neg hname] at h
          obtain ⟨k', hk', hrest⟩ := ih h
          exact ⟨k', by simp [hk'], hrest⟩

/-- Claim C10 (amended): read_file ignores its filename argument entirely;
    it succeeds exactly when the root-directory sector 2048 is readable, the
    linear scan of its 16 entries (stopping at the first 0x00-initial entry,
    skipping 0xE5 entries) finds an entry rendering as the literal name
    "PROGRAM.C" with a nonzero 16-bit first-cluster field (bytes 26/27 read
    big-endian), and the data sector derived from that cluster is readable;
    and whenever the scan reports a nonzero cluster, some scanned entry
    renders exactly as "PROGRAM.C" (no other name can ever be found). -/
theorem claim_C10_read_file (card : ℕ → Option (ℕ → ℕ)) (fn1 fn2 : String)
    (maxLen : ℕ) :
    read_file card fn1 maxLen = read_file card fn2 maxLen ∧
    ((read_file card fn1 maxLen).isSome = true ↔
      ∃ root, card 2048 = some root ∧ findProgramCluster root ≠ 0 ∧
        (card (2078 + findProgramCluster root)).isSome = true) ∧
    (∀ root : ℕ → ℕ, findProgramCluster root ≠ 0 →
      ∃ k, k < 16 ∧ sbyte root (32 * k) ≠ 0 ∧ sbyte root (32 * k) ≠ 229 ∧
        buildName root (32 * k) = "PROGRAM.C") := by
  refine ⟨rfl, ?_, ?_⟩
  · rcases hroot : card 2048 with _ | root
    · simp [read_file, hroot]
    · by_cases hcl : findProgramCluster root = 0
      · simp [read_file, hroot, hcl]
      · rcases hdata : card (2078 + findProgramCluster root) with _ | data
        · simp [read_file, hroot, hcl, hdata]
        · simp [read_file, hroot, hcl, hdata]
  · intro root hroot
    obtain ⟨k, hk, hrest⟩ := scanGo_finds root (List.range 16) hroot
    exact ⟨k, List.mem_range.mp hk, hrest⟩

/-- A root-directory sector with a "PROGRAM.C" entry whose cluster field is
    3, for the C10 witness. -/
def rootOK : ℕ → ℕ := fun i =>
  ([80, 82, 79, 71, 82, 65, 77, 32, 67, 32, 32,
    0, 0, 0, 0, 0, 0, 0, 0, 0, 0, 0, 0, 0, 0, 0, 0, 3] : List ℕ).getD i 0

/-- A card whose every sector read returns the rootOK bytes. -/
def cardOK : ℕ → Option (ℕ → ℕ) := fun _ => some rootOK

/-- Witness for C10 at a concrete card where the lookup succeeds. -/
theorem claim_C10_witness :
    (read_file cardOK ("a.txt") 4096).isSome = true ∧
    read_file cardOK ("a.txt") 4096 = read_file cardOK ("b.txt") 4096 ∧
    (∃ k, k < 16 ∧ sbyte rootOK (32 * k) ≠ 0 ∧ sbyte rootOK (32 * k) ≠ 229 ∧
      buildName rootOK (32 * k) = "PROGRAM.C") := by
  have h := claim_C10_read_file cardOK ("a.txt") ("b.txt") 4096
  refine ⟨?_, h.1, h.2.2 rootOK (by decide)⟩
  exact (h.2.1).mpr ⟨rootOK, rfl, by decide, rfl⟩

end W2V
